import Mathlib

/-!
Verification of the LeadSight sales-agent crawler (src/app.py, src/server.py,
src/llm_utils.py).

The Python source is shallowly embedded: text is modelled as a list of
characters, outcomes of browser navigation / network calls are explicit
parameters (a failed navigation is `none`), and every embedded function is an
executable Lean definition mirroring the control flow of its Python original.
External standard-library calls (urljoin, urlparse, json.loads, json.dumps)
are either modelled for the URL shapes the program handles or passed in as
parameters, as noted at each definition.
-/

namespace LeadSight

/-- Text is a list of characters (Python str). -/
abbrev Str := List Char

/-- Python str.lower(), applied character-wise. -/
def lowerL (s : Str) : Str := s.map Char.toLower

/-- Python whitespace test for \s and str.strip(); ASCII whitespace. -/
def isSpaceChar (c : Char) : Bool := c.isWhitespace

/-- Right strip: drop trailing whitespace. -/
def rstripL (s : Str) : Str := (s.reverse.dropWhile isSpaceChar).reverse

/-- Python str.strip(): drop leading and trailing whitespace. -/
def pyStrip (s : Str) : Str := rstripL (s.dropWhile isSpaceChar)

/-! ### Lemmas about pyStrip and substring containment -/

theorem rstripL_prefix_self (s : Str) : rstripL s <+: s := by
  have h := List.reverse_prefix.mpr (List.dropWhile_suffix (l := s.reverse) isSpaceChar)
  simpa [rstripL] using h

theorem rstripL_prefix_append (s t : Str) : rstripL s <+: rstripL (s ++ t) := by
  unfold rstripL
  rw [List.reverse_append, List.dropWhile_append]
  cases hE : (t.reverse.dropWhile isSpaceChar).isEmpty with
  | true => simp [hE]
  | false =>
    simp only [hE, Bool.false_eq_true, if_false, List.reverse_append,
      List.reverse_reverse]
    exact (rstripL_prefix_self s).trans (List.prefix_append _ _)

theorem pyStrip_infix_self (s : Str) : pyStrip s <:+: s :=
  ((rstripL_prefix_self _).isInfix).trans (List.dropWhile_suffix isSpaceChar).isInfix

/-- An occurrence of a pattern with no whitespace survives dropWhile of
whitespace from the front. -/
theorem infix_dropWhile_of_no_space {kw : Str} (hne : kw ≠ [])
    (hnw : ∀ c ∈ kw, isSpaceChar c = false) :
    ∀ {s : Str}, kw <:+: s → kw <:+: s.dropWhile isSpaceChar := by
  intro s
  induction s with
  | nil => intro h; simpa using h
  | cons c t ih =>
    intro h
    by_cases hc : isSpaceChar c
    · rw [List.dropWhile_cons_of_pos hc]
      rcases h with ⟨pre, post, hsplit⟩
      cases pre with
      | nil =>
        cases kw with
        | nil => exact absurd rfl hne
        | cons k kw' =>
          simp only [List.nil_append, List.cons_append, List.cons.injEq] at hsplit
          have : isSpaceChar k = false := hnw k (List.mem_cons_self k kw')
          rw [hsplit.1] at this
          rw [this] at hc
          exact absurd hc (by simp)
      | cons a pre' =>
        simp only [List.cons_append, List.cons.injEq] at hsplit
        exact ih ⟨pre', post, hsplit.2⟩
    · rw [List.dropWhile_cons_of_neg hc]
      exact h

/-- An occurrence of a whitespace-free pattern survives str.strip(). -/
theorem infix_pyStrip_of_no_space {kw : Str} (hne : kw ≠ [])
    (hnw : ∀ c ∈ kw, isSpaceChar c = false) {s : Str}
    (h : kw <:+: s) : kw <:+: pyStrip s := by
  unfold pyStrip rstripL
  have h1 : kw <:+: s.dropWhile isSpaceChar :=
    infix_dropWhile_of_no_space hne hnw h
  have h2 : kw.reverse <:+: (s.dropWhile isSpaceChar).reverse :=
    List.reverse_infix.mpr h1
  have hne' : kw.reverse ≠ [] := by
    intro hx; exact hne (by simpa using congrArg List.reverse hx)
  have hnw' : ∀ c ∈ kw.reverse, isSpaceChar c = false := by
    intro c hc; exact hnw c (List.mem_reverse.mp hc)
  have h3 : kw.reverse <:+: (s.dropWhile isSpaceChar).reverse.dropWhile isSpaceChar :=
    infix_dropWhile_of_no_space hne' hnw' h2
  have := List.reverse_infix.mpr h3
  simpa using this

theorem infix_pyStrip_iff_of_no_space {kw : Str} (hne : kw ≠ [])
    (hnw : ∀ c ∈ kw, isSpaceChar c = false) (s : Str) :
    (kw <:+: pyStrip s) ↔ (kw <:+: s) :=
  ⟨fun h => h.trans (pyStrip_infix_self s), infix_pyStrip_of_no_space hne hnw⟩

/-- Appending text on the right can only extend the stripped core. -/
theorem pyStrip_infix_append (s t : Str) : pyStrip s <:+: pyStrip (s ++ t) := by
  unfold pyStrip
  rw [List.dropWhile_append]
  cases hE : (s.dropWhile isSpaceChar).isEmpty with
  | true =>
    have hnil : s.dropWhile isSpaceChar = [] := by
      cases h : s.dropWhile isSpaceChar
      · rfl
      · rw [h] at hE; simp at hE
    rw [hnil]
    simp [rstripL]
  | false =>
    simp only [hE, Bool.false_eq_true, if_false]
    exact (rstripL_prefix_append _ t).isInfix

/-! ### Link Scorer (scrape_company, src/app.py lines 146-181;
src/server.py lines 153-176) -/

/-- IMPORTANT_KEYWORDS, src/app.py lines 33-37. -/
def IMPORTANT_KEYWORDS : List Str :=
  ["about".data, "company".data, "corporate".data, "group".data,
   "leadership".data, "management".data, "investor".data,
   "who".data, "overview".data, "profile".data]

/-- The scoring loop of src/app.py lines 166-172: for each keyword add 2 when
it occurs in the (lowered, stripped) link text and 3 when it occurs in the
lowered resolved URL.  The Python loop accumulates the same per-keyword
contributions in order; addition of naturals makes the recursion equal to the
accumulating loop. -/
def linkScore : List Str → Str → Str → Nat
  | [], _, _ => 0
  | kw :: kws, link_text, full_url =>
    (if kw <:+: link_text then 2 else 0) +
    (if kw <:+: lowerL full_url then 3 else 0) +
    linkScore kws link_text full_url

/-- Number of keywords of the list occurring as substrings of s. -/
def countKw (kws : List Str) (s : Str) : Nat :=
  List.countP (fun kw => decide (kw <:+: s)) kws

theorem linkScore_split (kws : List Str) (t u : Str) :
    linkScore kws t u = 2 * countKw kws t + 3 * countKw kws (lowerL u) := by
  induction kws with
  | nil => simp [linkScore, countKw]
  | cons kw kws ih =>
    simp only [linkScore, countKw, List.countP_cons] at *
    rw [ih]
    by_cases h1 : kw <:+: t <;> by_cases h2 : kw <:+: lowerL u <;>
      simp [h1, h2] <;> ring

/-- Per-anchor score: the link text is lowered and stripped before the scoring
loop runs (src/app.py line 155). -/
def scoreOfAnchor (kws : List Str) (rawText full_url : Str) : Nat :=
  linkScore kws (pyStrip (lowerL rawText)) full_url

/-- Model of urlparse(url).netloc for the absolute http(s) URLs this program
handles: the text after the first "://" up to the first of '/', '?', '#';
empty when the URL has no scheme separator. -/
def netlocTail (s : Str) : Str :=
  s.takeWhile (fun c => !(c == '/' || c == '?' || c == '#'))

def dropThroughSchemeSep : Str → Option Str
  | [] => none
  | c :: t =>
    if "://".data.isPrefixOf (c :: t) then some ((c :: t).drop 3)
    else dropThroughSchemeSep t

def netloc (url : Str) : Str :=
  match dropThroughSchemeSep url with
  | none => []
  | some r => netlocTail r

/-- Candidate collection, src/app.py lines 150-178, before sorting.  Each
anchor carries the raw href attribute (none models a missing attribute, the
empty string a falsy one; both are skipped) and the visible text.  resolve
models urljoin(website, href); for an absolute href urljoin returns the href
unchanged.  An anchor is kept when the target netloc occurs as a substring of
the WHOLE resolved URL (the Python test is domain not in full_url) and its
score is positive. -/
def candidate_links_raw (website : Str) (resolve : Str → Str)
    (anchors : List (Option Str × Str)) : List (Str × Nat) :=
  anchors.filterMap (fun a =>
    match a.1 with
    | none => none
    | some href =>
      if href.isEmpty then none
      else
        let full_url := resolve href
        if netloc website <:+: full_url then
          if 0 < scoreOfAnchor IMPORTANT_KEYWORDS a.2 full_url then
            some (full_url, scoreOfAnchor IMPORTANT_KEYWORDS a.2 full_url)
          else none
        else none)

/-- Descending comparison on scores used by the stable sort of
src/app.py line 181. -/
def scoreGE (a b : Str × Nat) : Prop := b.2 ≤ a.2

instance : DecidableRel scoreGE := fun a b => Nat.decLe b.2 a.2

instance : IsTotal (Str × Nat) scoreGE := ⟨fun a b => Nat.le_total b.2 a.2⟩

instance : IsTrans (Str × Nat) scoreGE := ⟨fun _ _ _ h1 h2 => Nat.le_trans h2 h1⟩

/-- sorted(candidate_links, key score, reverse=True), src/app.py line 181.
Python sorted is a stable sort; insertion sort with the non-strict descending
comparison is stable and therefore produces the identical list. -/
def candidate_links (website : Str) (resolve : Str → Str)
    (anchors : List (Option Str × Str)) : List (Str × Nat) :=
  List.insertionSort scoreGE (candidate_links_raw website resolve anchors)

/-! ### Page Aggregator: bounded traversal of the top-3 candidates
(src/app.py lines 183-205; src/server.py lines 177-194).

fetch models one iteration of page.goto plus page.inner_text on a sub-page:
none is a navigation/extraction failure (the except branch), some t the
captured body text.  The first component of the result is the list of URLs
navigated to, in order (each added to the visited set right before its goto);
the second is the aggregate text. -/

def traverseAux (fetch : Str → Option Str) :
    List (Str × Nat) → List Str → Str → List Str × Str
  | [], _, acc => ([], acc)
  | (url, _) :: rest, visited, acc =>
    if url ∈ visited then traverseAux fetch rest visited acc
    else
      match fetch url with
      | some sub_text =>
        let p := traverseAux fetch rest (url :: visited) (acc ++ ' ' :: sub_text)
        (url :: p.1, p.2)
      | none =>
        let p := traverseAux fetch rest (url :: visited) acc
        (url :: p.1, p.2)

/-- The traversal loop over candidate_links[:3] with an initially empty
visited set, starting from the homepage text. -/
def traverse (fetch : Str → Option Str) (cands : List (Str × Nat))
    (home : Str) : List Str × Str :=
  traverseAux fetch (cands.take 3) [] home

theorem traverseAux_length_le (fetch : Str → Option Str) :
    ∀ (l : List (Str × Nat)) (visited : List Str) (acc : Str),
      (traverseAux fetch l visited acc).1.length ≤ l.length := by
  intro l
  induction l with
  | nil => intro v a; simp [traverseAux]
  | cons hd rest ih =>
    intro v a
    obtain ⟨url, sc⟩ := hd
    by_cases hv : url ∈ v
    · simp only [traverseAux, if_pos hv]
      exact Nat.le_succ_of_le (ih v a)
    · cases hf : fetch url with
      | some sub => simp only [traverseAux, if_neg hv, hf, List.length_cons]
                    exact Nat.succ_le_succ (ih _ _)
      | none => simp only [traverseAux, if_neg hv, hf, List.length_cons]
                exact Nat.succ_le_succ (ih _ _)

theorem traverseAux_nodup_avoid (fetch : Str → Option Str) :
    ∀ (l : List (Str × Nat)) (visited : List Str) (acc : Str),
      (traverseAux fetch l visited acc).1.Nodup ∧
      ∀ u ∈ (traverseAux fetch l visited acc).1, u ∉ visited := by
  intro l
  induction l with
  | nil => intro v a; simp [traverseAux]
  | cons hd rest ih =>
    intro v a
    obtain ⟨url, sc⟩ := hd
    by_cases hv : url ∈ v
    · simp only [traverseAux, if_pos hv]
      exact ih v a
    · cases hf : fetch url with
      | some sub =>
        have h := ih (url :: v) (a ++ ' ' :: sub)
        simp only [traverseAux, if_neg hv, hf]
        refine ⟨List.nodup_cons.mpr ⟨fun hm => (h.2 url hm) (List.mem_cons_self url v), h.1⟩, ?_⟩
        intro u hu
        rcases List.mem_cons.mp hu with rfl | hu'
        · exact hv
        · exact fun hin => (h.2 u hu') (List.mem_cons_of_mem url hin)
      | none =>
        have h := ih (url :: v) a
        simp only [traverseAux, if_neg hv, hf]
        refine ⟨List.nodup_cons.mpr ⟨fun hm => (h.2 url hm) (List.mem_cons_self url v), h.1⟩, ?_⟩
        intro u hu
        rcases List.mem_cons.mp hu with rfl | hu'
        · exact hv
        · exact fun hin => (h.2 u hu') (List.mem_cons_of_mem url hin)

theorem traverseAux_subset (fetch : Str → Option Str) :
    ∀ (l : List (Str × Nat)) (visited : List Str) (acc : Str),
      ∀ u ∈ (traverseAux fetch l visited acc).1, u ∈ l.map Prod.fst := by
  intro l
  induction l with
  | nil => intro v a; simp [traverseAux]
  | cons hd rest ih =>
    intro v a
    obtain ⟨url, sc⟩ := hd
    by_cases hv : url ∈ v
    · simp only [traverseAux, if_pos hv]
      intro u hu
      exact List.mem_cons_of_mem _ (ih v a u hu)
    · cases hf : fetch url with
      | some sub =>
        simp only [traverseAux, if_neg hv, hf]
        intro u hu
        rcases List.mem_cons.mp hu with rfl | hu'
        · exact List.mem_cons_self _ _
        · exact List.mem_cons_of_mem _ (ih _ _ u hu')
      | none =>
        simp only [traverseAux, if_neg hv, hf]
        intro u hu
        rcases List.mem_cons.mp hu with rfl | hu'
        · exact List.mem_cons_self _ _
        · exact List.mem_cons_of_mem _ (ih _ _ u hu')

theorem traverseAux_acc_prefix_agg (fetch : Str → Option Str) :
    ∀ (l : List (Str × Nat)) (visited : List Str) (acc : Str),
      acc <+: (traverseAux fetch l visited acc).2 := by
  intro l
  induction l with
  | nil => intro v a; simp [traverseAux]
  | cons hd rest ih =>
    intro v a
    obtain ⟨url, sc⟩ := hd
    by_cases hv : url ∈ v
    · simp only [traverseAux, if_pos hv]
      exact ih v a
    · cases hf : fetch url with
      | some sub =>
        simp only [traverseAux, if_neg hv, hf]
        exact (List.prefix_append a (' ' :: sub)).trans (ih _ _)
      | none =>
        simp only [traverseAux, if_neg hv, hf]
        exact ih _ _

theorem traverseAux_fetched_infix (fetch : Str → Option Str) :
    ∀ (l : List (Str × Nat)) (visited : List Str) (acc : Str) (u : Str) (t : Str),
      u ∈ (traverseAux fetch l visited acc).1 → fetch u = some t →
      t <:+: (traverseAux fetch l visited acc).2 := by
  intro l
  induction l with
  | nil => intro v a u t hu; simp [traverseAux] at hu
  | cons hd rest ih =>
    intro v a u t hu hft
    obtain ⟨url, sc⟩ := hd
    by_cases hv : url ∈ v
    · simp only [traverseAux, if_pos hv] at hu ⊢
      exact ih v a u t hu hft
    · cases hf : fetch url with
      | some sub =>
        simp only [traverseAux, if_neg hv, hf] at hu ⊢
        rcases List.mem_cons.mp hu with rfl | hu'
        · have hts : t = sub := by rw [hft] at hf; exact (Option.some.injEq _ _ ▸ hf)
          subst hts
          have h1 : t <:+ a ++ ' ' :: t :=
            (List.suffix_cons ' ' t).trans (List.suffix_append a (' ' :: t))
          exact h1.isInfix.trans (traverseAux_acc_prefix_agg fetch rest _ _).isInfix
        · exact ih _ _ u t hu' hft
      | none =>
        simp only [traverseAux, if_neg hv, hf] at hu ⊢
        rcases List.mem_cons.mp hu with rfl | hu'
        · rw [hft] at hf; exact absurd hf (by simp)
        · exact ih _ _ u t hu' hft

theorem traverseAux_navs_indep (fetch fetch' : Str → Option Str) :
    ∀ (l : List (Str × Nat)) (visited : List Str) (acc acc' : Str),
      (traverseAux fetch l visited acc).1 = (traverseAux fetch' l visited acc').1 := by
  intro l
  induction l with
  | nil => intro v a a'; simp [traverseAux]
  | cons hd rest ih =>
    intro v a a'
    obtain ⟨url, sc⟩ := hd
    by_cases hv : url ∈ v
    · simp only [traverseAux, if_pos hv]
      exact ih v a a'
    · cases hf : fetch url with
      | some sub =>
        cases hf' : fetch' url with
        | some sub' =>
          simp only [traverseAux, if_neg hv, hf, hf', List.cons.injEq]
          exact ⟨trivial, ih _ _ _⟩
        | none =>
          simp only [traverseAux, if_neg hv, hf, hf', List.cons.injEq]
          exact ⟨trivial, ih _ _ _⟩
      | none =>
        cases hf' : fetch' url with
        | some sub' =>
          simp only [traverseAux, if_neg hv, hf, hf', List.cons.injEq]
          exact ⟨trivial, ih _ _ _⟩
        | none =>
          simp only [traverseAux, if_neg hv, hf, hf', List.cons.injEq]
          exact ⟨trivial, ih _ _ _⟩

/-! ### Fact Extractor (src/app.py lines 65-87; identical copies in
src/server.py lines 82-104).

The three regex patterns are modelled by direct matchers.  re.search scans
start positions left to right and returns the leftmost match; at a fixed
start position the greedy quantifiers of these patterns have no productive
backtracking except the optional (in\s+)? group, which is tried
present-first, exactly as below. -/

/-- Match a literal word case-insensitively at the start; return the rest. -/
def matchWord : Str → Str → Option Str
  | [], s => some s
  | _, [] => none
  | a :: wr, b :: s => if a.toLower = b.toLower then matchWord wr s else none

/-- Match \s+ at the start (greedy); return the rest. -/
def matchSpaces1 : Str → Option Str
  | [] => none
  | c :: t => if isSpaceChar c then some (t.dropWhile isSpaceChar) else none

/-- Match \d{4} at the start; return the rest. -/
def matchDigits4 (s : Str) : Option Str :=
  if (s.take 4).length = 4 ∧ (s.take 4).all Char.isDigit then some (s.drop 4)
  else none

/-- Match (in\s+)?(\d{4}) at the start: the optional group is tried first,
falling back to the bare year, as the regex engine does. -/
def matchYearTail (s : Str) : Option Str :=
  match matchWord "in".data s with
  | some r1 =>
    match matchSpaces1 r1 with
    | some r2 =>
      match matchDigits4 r2 with
      | some r3 => some r3
      | none => matchDigits4 s
    | none => matchDigits4 s
  | none => matchDigits4 s

/-- Match word\s+(in\s+)?(\d{4}) at the start of s (case-insensitive);
return the number of characters consumed. -/
def matchFoundedPat (word : Str) (s : Str) : Option Nat :=
  match matchWord word s with
  | none => none
  | some r1 =>
    match matchSpaces1 r1 with
    | none => none
    | some r2 =>
      match matchYearTail r2 with
      | some rest => some (s.length - rest.length)
      | none => none

/-- Match Since\s+(\d{4}) at the start of s; return the consumed length. -/
def matchSincePat (s : Str) : Option Nat :=
  match matchWord "since".data s with
  | none => none
  | some r1 =>
    match matchSpaces1 r1 with
    | none => none
    | some r2 =>
      match matchDigits4 r2 with
      | some rest => some (s.length - rest.length)
      | none => none

/-- re.search: try the matcher at every start position, left to right, and
return the matched text (group 0) of the first success. -/
def searchPat (m : Str → Option Nat) : Str → Option Str
  | [] =>
    match m [] with
    | some n => some (List.take n [])
    | none => none
  | c :: t =>
    match m (c :: t) with
    | some n => some ((c :: t).take n)
    | none => searchPat m t

/-- extract_founded, src/app.py lines 65-75: the three patterns are tried in
order and the first pattern with a match anywhere wins. -/
def extract_founded (text : Str) : Option Str :=
  match searchPat (matchFoundedPat "founded".data) text with
  | some m => some m
  | none =>
    match searchPat (matchFoundedPat "established".data) text with
    | some m => some m
    | none => searchPat matchSincePat text

/-- Character classes of the email pattern of src/app.py line 79. -/
def localChar (c : Char) : Bool :=
  c.isAlpha || c.isDigit || c == '.' || c == '_' || c == '%' || c == '+' || c == '-'

def domChar (c : Char) : Bool := c.isAlpha || c.isDigit || c == '.' || c == '-'

/-- Largest index k ≥ 1 into D with D[k] = '.' followed by a letter: the
backtracking point of the greedy domain part of the email regex. -/
def emailDotSearch (D : Str) : Nat → Option Nat
  | 0 => none
  | Nat.succ k =>
    if 1 ≤ k ∧ D.get? k = some '.' ∧ (D.get? (k + 1)).any Char.isAlpha = true
    then some k
    else emailDotSearch D k

/-- Match the email pattern at the start of s; return the consumed length.
The local part and the domain run are taken greedily; the domain part
backtracks to the last dot of the run that is followed by a letter, and the
top-level-domain part takes the maximal letter run after that dot. -/
def matchEmailAt (s : Str) : Option Nat :=
  let L := s.takeWhile localChar
  if L.isEmpty then none
  else
    match s.drop L.length with
    | '@' :: rest =>
      let D := rest.takeWhile domChar
      match emailDotSearch D D.length with
      | none => none
      | some k =>
        let tld := ((D.drop (k + 1)).takeWhile Char.isAlpha).length
        some (L.length + 1 + k + 1 + tld)
    | _ => none

/-- extract_email, src/app.py lines 78-81. -/
def extract_email (text : Str) : Option Str := searchPat matchEmailAt text

/-- extract_sentence_near_keyword, src/app.py lines 84-87, for a literal
keyword with no regex metacharacters (it is only called with "about us"):
the leftmost match of ([^.]*kw[^.]*) is the first maximal period-free run
containing the keyword case-insensitively; the result is stripped. -/
def extract_sentence_near_keyword (text kw : Str) : Option Str :=
  match (text.splitOn '.').find?
      (fun run => decide (lowerL kw <:+: lowerL run)) with
  | some run => some (pyStrip run)
  | none => none

/-- re.sub(r"\s+", " ", text), src/app.py line 208: collapse every maximal
whitespace run to a single space. -/
def collapseWS : Str → Str
  | [] => []
  | c :: t =>
    if isSpaceChar c then ' ' :: collapseWS (t.dropWhile isSpaceChar)
    else c :: collapseWS t
termination_by s => s.length
decreasing_by
· simp only [List.length_cons]
  exact Nat.lt_succ_of_le ((List.dropWhile_sublist isSpaceChar).length_le)
· simp

/-! ### Enrichment Adapter (src/llm_utils.py lines 17-167 and the mapping
block of src/app.py lines 222-259). -/

/-- Parsed JSON values (the result of json.loads). -/
inductive JValue where
  | null
  | bool (b : Bool)
  | num (n : Int)
  | str (s : Str)
  | arr (elems : List JValue)
  | obj (fields : List (Str × JValue))

/-- One output cell for an enrichment column: Python None, a primitive
stored as-is, or the compact json.dumps serialization of a nested value. -/
inductive Cell where
  | null
  | scalar (v : JValue)
  | text (s : Str)

/-- dict.get on a parsed JSON object (keys are unique after json.loads). -/
def jGet (fs : List (Str × JValue)) (k : Str) : Option JValue :=
  (fs.find? (fun p => p.1 == k)).map Prod.snd

/-- The per-key mapping of src/app.py lines 248-256: absent key or JSON null
give None, dict and list values are serialized with json.dumps (passed in as
the parameter dumps), any other value is stored as-is. -/
def mapCell (dumps : JValue → Str) (v : Option JValue) : Cell :=
  match v with
  | none => Cell.null
  | some JValue.null => Cell.null
  | some (JValue.obj fs) => Cell.text (dumps (JValue.obj fs))
  | some (JValue.arr xs) => Cell.text (dumps (JValue.arr xs))
  | some w => Cell.scalar w

/-- The per-company result dict of src/app.py lines 99-115, with the column
names of OUTPUT_COLUMNS as field names. -/
structure CompanyResult where
  companyName : Str
  website : Str
  foundedInfo : Option Str
  aboutUs : Option Str
  company_overview : Cell
  business_model : Cell
  products_services : Cell
  operational_footprint : Cell
  ai_ml_opportunity_map : Cell
  leadership : Cell
  strategic_developments : Cell
  strategic_outlook : Cell
  executive_brief : Cell
  email : Option Str

/-- The freshly initialized result dict: every field None except identity. -/
def initResult (company_name website : Str) : CompanyResult :=
  { companyName := company_name, website := website,
    foundedInfo := none, aboutUs := none,
    company_overview := Cell.null, business_model := Cell.null,
    products_services := Cell.null, operational_footprint := Cell.null,
    ai_ml_opportunity_map := Cell.null, leadership := Cell.null,
    strategic_developments := Cell.null, strategic_outlook := Cell.null,
    executive_brief := Cell.null, email := none }

/-- The nine enrichment columns are all None. -/
def nineNull (r : CompanyResult) : Prop :=
  r.company_overview = Cell.null ∧ r.business_model = Cell.null ∧
  r.products_services = Cell.null ∧ r.operational_footprint = Cell.null ∧
  r.ai_ml_opportunity_map = Cell.null ∧ r.leadership = Cell.null ∧
  r.strategic_developments = Cell.null ∧ r.strategic_outlook = Cell.null ∧
  r.executive_brief = Cell.null

/-- The enrichment block of src/app.py lines 222-259: raw is the value
returned by preprocess_about_with_llm (None or a non-empty string; the
falsy-string guard of line 229 is kept), parse models json.loads (none is a
JSONDecodeError), dumps models json.dumps(·, ensure_ascii=False).  A parse
failure or a non-dict value leaves the result untouched; a dict updates the
nine enrichment fields through mapCell. -/
def applyEnrichment (parse : Str → Option JValue) (dumps : JValue → Str)
    (raw : Option Str) (r : CompanyResult) : CompanyResult :=
  match raw with
  | none => r
  | some s =>
    if s.isEmpty then r
    else
      match parse s with
      | none => r
      | some (JValue.obj fs) =>
        { r with
          company_overview := mapCell dumps (jGet fs "company_overview".data),
          business_model := mapCell dumps (jGet fs "business_model".data),
          products_services := mapCell dumps (jGet fs "products_services".data),
          operational_footprint := mapCell dumps (jGet fs "operational_footprint".data),
          ai_ml_opportunity_map := mapCell dumps (jGet fs "ai_ml_opportunity_map".data),
          leadership := mapCell dumps (jGet fs "leadership".data),
          strategic_developments := mapCell dumps (jGet fs "strategic_developments".data),
          strategic_outlook := mapCell dumps (jGet fs "strategic_outlook".data),
          executive_brief := mapCell dumps (jGet fs "executive_brief".data) }
      | some _ => r

/-- Outcome of the HTTP call to the enrichment service, including response
validation and content extraction: failed covers any raised exception
(network error, bad status, malformed response JSON), ok carries the
extracted message content before strip(). -/
inductive NetOutcome where
  | failed
  | ok (content : Str)

/-- The unconfigured test of src/llm_utils.py lines 128-133: a missing or
empty credential or model name, or a placeholder value containing
YOUR_GROQ.  getenv returns none when the variable is unset. -/
def isUnconfigured (key modelName : Option Str) : Bool :=
  (match key with | none => true | some k => k.isEmpty) ||
  (match modelName with | none => true | some m => m.isEmpty) ||
  (match key with
   | none => false
   | some k => decide ("YOUR_GROQ".data <:+: k)) ||
  (match modelName with
   | none => false
   | some m => decide ("YOUR_GROQ".data <:+: m))

/-- preprocess_about_with_llm, src/llm_utils.py lines 17-167.  Returns the
function result together with a flag recording whether the network call was
attempted.  Unconfigured credentials skip the call; any exception from the
call is caught and yields None; a successful call returns the stripped
content, or None when it strips to empty (the content-or-None of line 163). -/
def preprocess_about_with_llm (key modelName : Option Str)
    (net : NetOutcome) : Option Str × Bool :=
  if isUnconfigured key modelName then (none, false)
  else
    match net with
    | NetOutcome.failed => (none, true)
    | NetOutcome.ok content =>
      (if pyStrip content = [] then none else some (pyStrip content), true)

/-! ### Crawl Job Controller per company (scrape_company, src/app.py
lines 94-271). -/

/-- External outcomes for one company crawl.  homeText is the homepage
navigation plus body-text extraction (none models a failure of page.goto on
the website or of the first inner_text, the fatal case of the outer except);
anchors are the discovered anchor tags, each with its href attribute and
visible text (anchors whose attribute extraction raised are skipped by the
inner except and therefore absent); resolve models urljoin(website, ·);
fetch models goto plus inner_text on a sub-page; llmRaw is the value
returned by preprocess_about_with_llm, which never raises; parse and dumps
model json.loads and json.dumps.  Cookie-consent handling (lines 127-136) is
best-effort, swallows every failure and does not affect the captured data,
so it has no observable effect in this model. -/
structure CrawlEnv where
  homeText : Option Str
  anchors : List (Option Str × Str)
  resolve : Str → Str
  fetch : Str → Option Str
  llmRaw : Option Str
  parse : Str → Option JValue
  dumps : JValue → Str

/-- scrape_company: the fatal path (cannot open the page or read the
homepage body) is caught by the outer except and returns the initialized
result; otherwise candidates are scored and sorted, the top three are
traversed, whitespace is collapsed, the three extractors run, and the
enrichment block fills the nine columns. -/
def scrape_company (env : CrawlEnv) (company_name website : Str) : CompanyResult :=
  let r0 := initResult company_name website
  match env.homeText with
  | none => r0
  | some home =>
    let cands := candidate_links website env.resolve env.anchors
    let all_text := collapseWS (traverse env.fetch cands home).2
    let r1 := { r0 with
      foundedInfo := extract_founded all_text,
      aboutUs := extract_sentence_near_keyword all_text "about us".data,
      email := extract_email all_text }
    applyEnrichment env.parse env.dumps env.llmRaw r1

/-! ### Job State and Event Queue (src/server.py lines 56-75 and 214-334). -/

/-- The event types pushed by push_event over the whole server flow. -/
inductive EventType where
  | start
  | company_start
  | step
  | company_done
  | done
  | errorEv
deriving DecidableEq

/-- Status values of the global job dict. -/
inductive JobStatus where
  | idle
  | running
  | done
  | error
deriving DecidableEq

/-- The global job dict of src/server.py lines 56-66. -/
structure Job where
  id : Option Str
  status : JobStatus
  total : Nat
  current : Nat
  current_company : Str
  current_step : Str
  results : List CompanyResult
  events : List EventType
  error : Option Str

/-- run_scraper_async, src/server.py lines 214-265: companies are processed
in order through the shared scrape_company of app.py (line 242), which
pushes no events itself (its logging is console printing); the run frames
them with start, per-company company_start / company_done, and done.
Returns the result list and the events pushed by the run. -/
def run_scraper (companies : List (CrawlEnv × Str × Str)) :
    List CompanyResult × List EventType :=
  (companies.map (fun c => scrape_company c.1 c.2.1 c.2.2),
   EventType.start ::
     (companies.flatMap (fun _ => [EventType.company_start, EventType.company_done])
      ++ [EventType.done]))

/-- Upload request data: whether a file part is present, its filename, and
the columns obtained by reading it (none models a read exception). -/
structure UploadReq where
  hasFile : Bool
  filename : Str
  readCols : Option (List Str)

/-- The distinct responses of the upload route. -/
inductive UploadResp where
  | conflict
  | noFile
  | badExt
  | readFailed
  | missingCols
  | ok (jobId : Str)

/-- f.filename.endswith((".xlsx", ".xls", ".csv")), src/server.py line 298. -/
def validExt (f : Str) : Bool :=
  ".xlsx".data.isSuffixOf f || ".xls".data.isSuffixOf f || ".csv".data.isSuffixOf f

/-- required.issubset(set(df.columns)), src/server.py lines 309-310. -/
def hasRequiredCols (cols : List Str) : Bool :=
  cols.contains "company_name".data && cols.contains "website".data

/-- The job.update reset of src/server.py lines 318-328. -/
def resetJob (newId : Str) : Job :=
  { id := some newId, status := JobStatus.running, total := 0, current := 0,
    current_company := [], current_step := [], results := [], events := [],
    error := none }

/-- The upload route, src/server.py lines 288-334.  newId models the fresh
job identifier str(uuid4())[:8].  The returned Bool records whether the
background scraper thread was started. -/
def upload (j : Job) (req : UploadReq) (newId : Str) :
    UploadResp × Job × Bool :=
  if j.status = JobStatus.running then (UploadResp.conflict, j, false)
  else if req.hasFile = false then (UploadResp.noFile, j, false)
  else if validExt req.filename = false then (UploadResp.badExt, j, false)
  else
    match req.readCols with
    | none => (UploadResp.readFailed, j, false)
    | some cols =>
      if hasRequiredCols cols = false then (UploadResp.missingCols, j, false)
      else (UploadResp.ok newId, resetJob newId, true)

/-! ### Concrete sample data used when evaluating the claims -/

/-- A crawl whose homepage navigation (or first inner_text) raises. -/
def fatalEnv : CrawlEnv :=
  { homeText := none, anchors := [], resolve := id, fetch := fun _ => none,
    llmRaw := none, parse := fun _ => none, dumps := fun _ => [] }

/-- A crawl whose enrichment call returns text that fails to parse as JSON. -/
def malformedEnv : CrawlEnv :=
  { homeText := some "h".data, anchors := [], resolve := id,
    fetch := fun _ => none, llmRaw := some "x".data,
    parse := fun _ => none, dumps := fun _ => [] }

def sampleRow : CompanyResult := initResult "n".data "w".data

/-- A job mid-run: status running with one accumulated result. -/
def busyJob : Job := { (resetJob "a".data) with results := [sampleRow] }

/-- The same job after its run ended. -/
def idleJob : Job := { busyJob with status := JobStatus.idle }

/-- A well-formed upload request. -/
def okReq : UploadReq :=
  { hasFile := true, filename := "c.xlsx".data,
    readCols := some ["company_name".data, "website".data] }

/-! ### Claim theorems -/

/-- C2: for every sorted candidate-link list, the traversal phase navigates
to at most 3 distinct URLs beyond the homepage, and never navigates to a URL
already present in the visited set for that crawl, even if the same URL
appears more than once in the candidate list (the navigation list is short
and duplicate-free). -/
theorem C2_traversal_cap_and_dedup (fetch : Str → Option Str)
    (cands : List (Str × Nat)) (home : Str) :
    (traverse fetch cands home).1.length ≤ 3 ∧
    (traverse fetch cands home).1.Nodup := by
  constructor
  · have h := traverseAux_length_le fetch (cands.take 3) [] home
    have h2 : (cands.take 3).length ≤ 3 := by
      rw [List.length_take]; omega
    exact Nat.le_trans h h2
  · exact (traverseAux_nodup_avoid fetch (cands.take 3) [] home).1

/-- C3: a failing sub-page is skipped and only that page is lost: the
homepage text opens the aggregate, the text of every sub-page whose fetch
succeeded occurs in the aggregate, and the sequence of navigations does not
depend on which fetches fail. -/
theorem C3_failing_subpage_isolated (fetch : Str → Option Str)
    (cands : List (Str × Nat)) (home : Str) :
    home <+: (traverse fetch cands home).2 ∧
    (∀ u t, u ∈ (traverse fetch cands home).1 → fetch u = some t →
      t <:+: (traverse fetch cands home).2) ∧
    (∀ fetch' : Str → Option Str,
      (traverse fetch' cands home).1 = (traverse fetch cands home).1) := by
  refine ⟨traverseAux_acc_prefix_agg fetch (cands.take 3) [] home, ?_, ?_⟩
  · intro u t hu hft
    exact traverseAux_fetched_infix fetch (cands.take 3) [] home u t hu hft
  · intro fetch'
    exact traverseAux_navs_indep fetch' fetch (cands.take 3) [] home home

/-- C3 witness: three candidates, the middle one fails; the homepage text
and the texts of the surviving first and third sub-pages all occur in the
aggregate. -/
theorem C3_witness :
    "H".data <+:
      (traverse (fun u => if u = "b".data then none else some ('T' :: u))
        [("a".data, 3), ("b".data, 2), ("c".data, 1)] "H".data).2 ∧
    "Ta".data <:+:
      (traverse (fun u => if u = "b".data then none else some ('T' :: u))
        [("a".data, 3), ("b".data, 2), ("c".data, 1)] "H".data).2 ∧
    "Tc".data <:+:
      (traverse (fun u => if u = "b".data then none else some ('T' :: u))
        [("a".data, 3), ("b".data, 2), ("c".data, 1)] "H".data).2 := by
  refine ⟨(C3_failing_subpage_isolated _ _ _).1,
    (C3_failing_subpage_isolated _ _ _).2.1 "a".data "Ta".data (by decide) (by decide),
    (C3_failing_subpage_isolated _ _ _).2.1 "c".data "Tc".data (by decide) (by decide)⟩

/-- C10: the top-3 selection happens before deduplication: whenever the
first three sorted candidates contain a duplicate URL, strictly fewer than
three sub-pages are visited, no matter how many further scored candidates
follow. -/
theorem C10_top3_taken_before_dedup (fetch : Str → Option Str)
    (cands : List (Str × Nat)) (home : Str)
    (hdup : ¬ ((cands.take 3).map Prod.fst).Nodup) :
    (traverse fetch cands home).1.length < 3 := by
  have hnd : (traverse fetch cands home).1.Nodup :=
    (traverseAux_nodup_avoid fetch (cands.take 3) [] home).1
  have hsub : ∀ u ∈ (traverse fetch cands home).1,
      u ∈ (cands.take 3).map Prod.fst :=
    traverseAux_subset fetch (cands.take 3) [] home
  have hsub' : (traverse fetch cands home).1 ⊆
      ((cands.take 3).map Prod.fst).dedup :=
    fun u hu => List.mem_dedup.mpr (hsub u hu)
  have h1 := (hnd.subperm hsub').length_le
  have hsl := List.dedup_sublist ((cands.take 3).map Prod.fst)
  have h2 : ((cands.take 3).map Prod.fst).dedup.length <
      ((cands.take 3).map Prod.fst).length := by
    rcases Nat.lt_or_ge ((cands.take 3).map Prod.fst).dedup.length
        ((cands.take 3).map Prod.fst).length with h | h
    · exact h
    · have heq := hsl.eq_of_length (Nat.le_antisymm hsl.length_le h)
      exact absurd (heq ▸ List.nodup_dedup ((cands.take 3).map Prod.fst)) hdup
  have h3 : ((cands.take 3).map Prod.fst).length ≤ 3 := by
    rw [List.length_map, List.length_take]; omega
  omega

/-- C10 witness: the three top-ranked candidates contain a duplicate URL, a
further positive-score candidate exists beyond position three, and only two
sub-pages are visited. -/
theorem C10_witness :
    (traverse (fun _ => none)
      [("a".data, 5), ("b".data, 4), ("a".data, 3), ("c".data, 2)]
      "H".data).1.length < 3 :=
  C10_top3_taken_before_dedup (fun _ => none)
    [("a".data, 5), ("b".data, 4), ("a".data, 3), ("c".data, 2)]
    "H".data (by decide)

/-- C9: extract_founded tries the Founded, Established and Since patterns in
order, returns the full text of the first match, and returns none when no
pattern matches; on the text Founded in 1998 it returns that text verbatim
and on a text without a founding phrase it returns none. -/
theorem C9_extract_founded_spec :
    (∀ t m, searchPat (matchFoundedPat "founded".data) t = some m →
      extract_founded t = some m) ∧
    (∀ t m, searchPat (matchFoundedPat "founded".data) t = none →
      searchPat (matchFoundedPat "established".data) t = some m →
      extract_founded t = some m) ∧
    (∀ t, searchPat (matchFoundedPat "founded".data) t = none →
      searchPat (matchFoundedPat "established".data) t = none →
      extract_founded t = searchPat matchSincePat t) ∧
    extract_founded "Founded in 1998".data = some "Founded in 1998".data ∧
    extract_founded "We sell shoes worldwide".data = none := by
  refine ⟨?_, ?_, ?_, by decide, by decide⟩
  · intro t m h; unfold extract_founded; rw [h]
  · intro t m h1 h2; unfold extract_founded; rw [h1, h2]
  · intro t h1 h2; unfold extract_founded; rw [h1, h2]

/-- C9 witness: the first pattern fails and the second pattern's match is
returned in full. -/
theorem C9_witness :
    extract_founded "We were Established  1875, ok".data =
      some "Established  1875".data :=
  C9_extract_founded_spec.2.1 "We were Established  1875, ok".data
    "Established  1875".data (by decide) (by decide)

theorem lowerL_append (s t : Str) : lowerL (s ++ t) = lowerL s ++ lowerL t :=
  List.map_append _ s t

theorem linkScore_mono {t t' u u' : Str}
    (ht : ∀ kw : Str, kw <:+: t → kw <:+: t')
    (hu : ∀ kw : Str, kw <:+: lowerL u → kw <:+: lowerL u') :
    ∀ kws : List Str, linkScore kws t u ≤ linkScore kws t' u' := by
  intro kws
  induction kws with
  | nil => simp [linkScore]
  | cons kw kws ih =>
    simp only [linkScore]
    have h1 : (if kw <:+: t then 2 else 0) ≤ (if kw <:+: t' then 2 else 0) := by
      by_cases h : kw <:+: t
      · rw [if_pos h, if_pos (ht kw h)]
      · rw [if_neg h]; exact Nat.zero_le _
    have h2 : (if kw <:+: lowerL u then 3 else 0) ≤
        (if kw <:+: lowerL u' then 3 else 0) := by
      by_cases h : kw <:+: lowerL u
      · rw [if_pos h, if_pos (hu kw h)]
      · rw [if_neg h]; exact Nat.zero_le _
    omega

/-- C8: for every keyword set and every visible-text / URL pair, the
per-anchor score is monotone: appending further text (in particular another
keyword occurrence) to the visible text or to the URL never decreases the
score. -/
theorem C8_score_monotone (kws : List Str) (rawText url ext : Str) :
    scoreOfAnchor kws rawText url ≤ scoreOfAnchor kws (rawText ++ ext) url ∧
    scoreOfAnchor kws rawText url ≤ scoreOfAnchor kws rawText (url ++ ext) := by
  constructor
  · apply linkScore_mono
    · intro kw h
      have h2 := h.trans (pyStrip_infix_append (lowerL rawText) (lowerL ext))
      rwa [← lowerL_append] at h2
    · intro kw h; exact h
  · apply linkScore_mono
    · intro kw h; exact h
    · intro kw h
      rw [lowerL_append]
      exact h.trans (List.prefix_append (lowerL url) (lowerL ext)).isInfix

/-! ### Helpers for the candidate pipeline claims -/

theorem important_keywords_words :
    ∀ kw ∈ IMPORTANT_KEYWORDS, kw ≠ [] ∧ ∀ c ∈ kw, isSpaceChar c = false := by
  decide

theorem countKw_pyStrip (s : Str) :
    countKw IMPORTANT_KEYWORDS (pyStrip s) = countKw IMPORTANT_KEYWORDS s := by
  unfold countKw
  apply List.countP_congr
  intro kw hkw
  have h := important_keywords_words kw hkw
  simpa using infix_pyStrip_iff_of_no_space h.1 h.2 s

theorem scoreOfAnchor_eq (txt u : Str) :
    scoreOfAnchor IMPORTANT_KEYWORDS txt u =
    2 * countKw IMPORTANT_KEYWORDS (lowerL txt) +
    3 * countKw IMPORTANT_KEYWORDS (lowerL u) := by
  unfold scoreOfAnchor
  rw [linkScore_split, countKw_pyStrip]

/-- Every entry of the unsorted candidate list comes from a kept anchor: it
has the resolved URL, contains the base netloc as a substring of the whole
URL, and carries a positive keyword score. -/
theorem mem_candidate_links_raw {website : Str} {resolve : Str → Str}
    {anchors : List (Option Str × Str)} {p : Str × Nat}
    (hp : p ∈ candidate_links_raw website resolve anchors) :
    ∃ href txt, (some href, txt) ∈ anchors ∧ p.1 = resolve href ∧
      netloc website <:+: p.1 ∧ 0 < p.2 ∧
      p.2 = scoreOfAnchor IMPORTANT_KEYWORDS txt p.1 := by
  obtain ⟨a, ha, hfa⟩ := List.mem_filterMap.mp hp
  obtain ⟨href?, txt⟩ := a
  cases href? with
  | none => simp at hfa
  | some href =>
    dsimp only at hfa
    by_cases hemp : href.isEmpty
    · rw [if_pos hemp] at hfa; exact absurd hfa (by simp)
    · rw [if_neg hemp] at hfa
      by_cases hdom : netloc website <:+: resolve href
      · rw [if_pos hdom] at hfa
        by_cases hsc : 0 < scoreOfAnchor IMPORTANT_KEYWORDS txt (resolve href)
        · rw [if_pos hsc] at hfa
          have hp' := (Option.some.injEq _ _).mp hfa
          refine ⟨href, txt, ha, ?_, ?_, ?_, ?_⟩
          · rw [← hp']
          · rw [← hp']; exact hdom
          · rw [← hp']; exact hsc
          · rw [← hp']
        · rw [if_neg hsc] at hfa; exact absurd hfa (by simp)
      · rw [if_neg hdom] at hfa; exact absurd hfa (by simp)

theorem mem_candidate_links {website : Str} {resolve : Str → Str}
    {anchors : List (Option Str × Str)} {p : Str × Nat}
    (hp : p ∈ candidate_links website resolve anchors) :
    p ∈ candidate_links_raw website resolve anchors :=
  (List.mem_insertionSort scoreGE).mp hp

/-- Stability of orderedInsert: filtering at a fixed score commutes with the
insertion, because an inserted element only passes elements of strictly
larger score. -/
theorem filter_orderedInsert_key (a : Str × Nat) (m : List (Str × Nat)) (n : Nat) :
    (List.orderedInsert scoreGE a m).filter (fun p => p.2 == n) =
    if a.2 = n then a :: m.filter (fun p => p.2 == n)
    else m.filter (fun p => p.2 == n) := by
  induction m with
  | nil =>
    by_cases han : a.2 = n <;>
      simp [List.orderedInsert, List.filter_cons, beq_iff_eq, han]
  | cons b l ih =>
    by_cases hr : scoreGE a b
    · simp only [List.orderedInsert, if_pos hr]
      by_cases han : a.2 = n <;>
        simp [List.filter_cons, beq_iff_eq, han]
    · have hlt : a.2 < b.2 := Nat.lt_of_not_le hr
      simp only [List.orderedInsert, if_neg hr, List.filter_cons]
      by_cases han : a.2 = n
      · have hbn : b.2 ≠ n := by omega
        simp [beq_iff_eq, hbn, ih, han]
      · by_cases hbn : b.2 = n
        · simp [beq_iff_eq, hbn, ih, han]
        · simp [beq_iff_eq, hbn, ih, han]

/-- Stability of the full sort: the elements of any fixed score appear in
the sorted output exactly in their encounter order. -/
theorem filter_insertionSort_key (l : List (Str × Nat)) (n : Nat) :
    (List.insertionSort scoreGE l).filter (fun p => p.2 == n) =
    l.filter (fun p => p.2 == n) := by
  induction l with
  | nil => rfl
  | cons a l ih =>
    simp only [List.insertionSort]
    rw [filter_orderedInsert_key]
    by_cases han : a.2 = n <;> simp [han, List.filter_cons, ih]

/-- C7: every candidate produced carries a positive score equal to two times
the number of keywords occurring in the lowercased visible text plus three
times the number of keywords occurring in the lowercased resolved URL, the
output is sorted by descending score, and ties keep encounter order (the
candidates of each fixed score appear exactly as in the unsorted list). -/
theorem C7_scorer_spec (website : Str) (resolve : Str → Str)
    (anchors : List (Option Str × Str)) :
    (∀ p ∈ candidate_links website resolve anchors,
      0 < p.2 ∧
      ∃ href txt, (some href, txt) ∈ anchors ∧ p.1 = resolve href ∧
        p.2 = 2 * countKw IMPORTANT_KEYWORDS (lowerL txt) +
              3 * countKw IMPORTANT_KEYWORDS (lowerL p.1)) ∧
    List.Sorted scoreGE (candidate_links website resolve anchors) ∧
    (∀ n : Nat,
      (candidate_links website resolve anchors).filter (fun p => p.2 == n) =
      (candidate_links_raw website resolve anchors).filter (fun p => p.2 == n)) := by
  refine ⟨?_, ?_, ?_⟩
  · intro p hp
    obtain ⟨href, txt, ha, hurl, _, hpos, hsc⟩ :=
      mem_candidate_links_raw (mem_candidate_links hp)
    exact ⟨hpos, href, txt, ha, hurl, by rw [hsc, scoreOfAnchor_eq]⟩
  · exact List.sorted_insertionSort scoreGE _
  · intro n
    exact filter_insertionSort_key _ n

/-- C7 witness: on a concrete homepage the produced candidate is scored
2 * 1 + 3 * 0 = 2 (keyword who in the text, none in the URL). -/
theorem C7_witness :
    0 < (("http://a.b/x".data, 2) : Str × Nat).2 ∧
    ∃ href txt,
      (some href, txt) ∈ [(some "http://a.b/x".data, "who".data)] ∧
      ("http://a.b/x".data, 2).1 = id href ∧
      (("http://a.b/x".data, 2) : Str × Nat).2 =
        2 * countKw IMPORTANT_KEYWORDS (lowerL txt) +
        3 * countKw IMPORTANT_KEYWORDS (lowerL ("http://a.b/x".data, 2).1) :=
  (C7_scorer_spec "http://a.b".data id
    [(some "http://a.b/x".data, "who".data)]).1
    ("http://a.b/x".data, 2) (by decide)

/-- C1 as stated is false: the same-domain filter tests whether the base
netloc occurs anywhere in the WHOLE resolved URL string, not in its host.
An anchor resolving to a foreign host whose path contains the base netloc is
kept as a candidate: here the base host is a.b, the anchor resolves to host
e.c, and the candidate is still produced. -/
theorem C1_counterexample :
    candidate_links "http://a.b".data id
      [(some "http://e.c/a.b".data, "who".data)] =
      [("http://e.c/a.b".data, 2)] ∧
    ¬ (netloc "http://a.b".data <:+: netloc "http://e.c/a.b".data) := by
  constructor
  · decide
  · decide

/-- C1 amended: every candidate's resolved URL contains the base netloc as a
substring of the full URL string (not necessarily of its host); anchors
whose resolved URL nowhere contains the base netloc are excluded. -/
theorem C1_amended_domain_substring (website : Str) (resolve : Str → Str)
    (anchors : List (Option Str × Str)) :
    ∀ p ∈ candidate_links website resolve anchors,
      netloc website <:+: p.1 := by
  intro p hp
  obtain ⟨_, _, _, _, hdom, _, _⟩ :=
    mem_candidate_links_raw (mem_candidate_links hp)
  exact hdom

/-- C1 witness: the amended containment evaluated on the counterexample
candidate. -/
theorem C1_witness :
    netloc "http://a.b".data <:+: ("http://e.c/a.b".data, 2).1 :=
  C1_amended_domain_substring "http://a.b".data id
    [(some "http://e.c/a.b".data, "who".data)]
    ("http://e.c/a.b".data, 2) (by decide)

/-- C5: the upload route fails with a conflict and leaves the job untouched
whenever the current status is running; when the status is not running and
the input validates (a file with an accepted extension that reads and has
the required columns), all job fields are reset, results and events become
empty, a fresh identifier is assigned, the status becomes running and the
background run is started. -/
theorem C5_upload_state_machine (j : Job) (req : UploadReq) (newId : Str) :
    (j.status = JobStatus.running →
      upload j req newId = (UploadResp.conflict, j, false)) ∧
    (j.status ≠ JobStatus.running → req.hasFile = true →
      validExt req.filename = true →
      ∀ cols, req.readCols = some cols → hasRequiredCols cols = true →
        upload j req newId = (UploadResp.ok newId, resetJob newId, true) ∧
        (resetJob newId).results = [] ∧ (resetJob newId).events = [] ∧
        (resetJob newId).id = some newId ∧
        (resetJob newId).status = JobStatus.running) := by
  constructor
  · intro h
    simp [upload, h]
  · intro h1 h2 h3 cols h4 h5
    refine ⟨?_, rfl, rfl, rfl, rfl⟩
    simp [upload, h1, h2, h3, h4, h5]

/-- C5 witness: a running job rejects a valid submission unchanged, and the
same submission against an idle job resets the state and starts the run. -/
theorem C5_witness :
    upload busyJob okReq "b".data = (UploadResp.conflict, busyJob, false) ∧
    upload idleJob okReq "b".data =
      (UploadResp.ok "b".data, resetJob "b".data, true) := by
  constructor
  · exact (C5_upload_state_machine busyJob okReq "b".data).1 rfl
  · exact ((C5_upload_state_machine idleJob okReq "b".data).2
      (by decide) rfl (by decide)
      ["company_name".data, "website".data] rfl (by decide)).1

/-- No step event is ever pushed along the server run path; the run frames
each company with company_start and company_done only, because the shared
scrape_company of app.py logs to the console instead of pushing events. -/
theorem run_scraper_no_step (cs : List (CrawlEnv × Str × Str)) :
    EventType.step ∉ (run_scraper cs).2 := by
  simp only [run_scraper]
  intro h
  rcases List.mem_cons.mp h with h | h
  · exact absurd h (by simp)
  · rcases List.mem_append.mp h with h | h
    · obtain ⟨c, _, hm⟩ := List.mem_flatMap.mp h
      simp at hm
    · simp at h

/-- C4 as stated is false in one conjunct: when opening the page or reading
the homepage fails, the crawl is caught and yields the identity-only result
and the run continues, but no error step event is pushed — the run path
calls the shared scrape_company of app.py, which only prints to the console
(the event-pushing scrape_company_async of server.py is not used by
run_scraper_async).  Here a company whose homepage navigation fails
produces the all-null-except-identity row while the run's event stream
contains no step event at all. -/
theorem C4_counterexample :
    scrape_company fatalEnv "n".data "w".data = initResult "n".data "w".data ∧
    ¬ (EventType.step ∈
      (run_scraper [(fatalEnv, "n".data, "w".data)]).2) := by
  constructor
  · rfl
  · intro h
    simp [run_scraper, List.mem_cons] at h

/-- C4 amended: on a fatal per-company failure (page open or homepage text)
the crawl catches the failure and returns the result with every field null
except the identity fields, the run still produces one result row per
company, and the failure is logged to the console only — the run path
pushes no step event (the per-company events remain company_start and
company_done). -/
theorem C4_amended_fatal_failure (env : CrawlEnv) (n w : Str)
    (cs : List (CrawlEnv × Str × Str)) (hfatal : env.homeText = none) :
    scrape_company env n w = initResult n w ∧
    (scrape_company env n w).companyName = n ∧
    (scrape_company env n w).website = w ∧
    (scrape_company env n w).foundedInfo = none ∧
    (scrape_company env n w).aboutUs = none ∧
    (scrape_company env n w).email = none ∧
    nineNull (scrape_company env n w) ∧
    (run_scraper cs).1.length = cs.length ∧
    EventType.step ∉ (run_scraper cs).2 := by
  have hres : scrape_company env n w = initResult n w := by
    unfold scrape_company
    rw [hfatal]
  refine ⟨hres, ?_, ?_, ?_, ?_, ?_, ?_, ?_, run_scraper_no_step cs⟩
  · rw [hres]; rfl
  · rw [hres]; rfl
  · rw [hres]; rfl
  · rw [hres]; rfl
  · rw [hres]; rfl
  · rw [hres]; exact ⟨rfl, rfl, rfl, rfl, rfl, rfl, rfl, rfl, rfl⟩
  · simp [run_scraper]

/-- C4 witness: the amended statement applied to a concrete fatal
environment and a one-company run. -/
theorem C4_witness :
    scrape_company fatalEnv "Acme".data "http://a.b".data =
      initResult "Acme".data "http://a.b".data :=
  (C4_amended_fatal_failure fatalEnv "Acme".data "http://a.b".data [] rfl).1

theorem applyEnrichment_none (parse : Str → Option JValue) (dumps : JValue → Str)
    (r : CompanyResult) : applyEnrichment parse dumps none r = r := rfl

/-- A response that is empty, fails to parse, or parses to anything but an
object leaves the result record untouched. -/
theorem applyEnrichment_not_obj (parse : Str → Option JValue) (dumps : JValue → Str)
    (s : Str) (r : CompanyResult)
    (h : ∀ fs, parse s ≠ some (JValue.obj fs)) :
    applyEnrichment parse dumps (some s) r = r := by
  show (if s.isEmpty = true then r else
    match parse s with
    | none => r
    | some (JValue.obj fs) =>
      { r with
        company_overview := mapCell dumps (jGet fs "company_overview".data),
        business_model := mapCell dumps (jGet fs "business_model".data),
        products_services := mapCell dumps (jGet fs "products_services".data),
        operational_footprint := mapCell dumps (jGet fs "operational_footprint".data),
        ai_ml_opportunity_map := mapCell dumps (jGet fs "ai_ml_opportunity_map".data),
        leadership := mapCell dumps (jGet fs "leadership".data),
        strategic_developments := mapCell dumps (jGet fs "strategic_developments".data),
        strategic_outlook := mapCell dumps (jGet fs "strategic_outlook".data),
        executive_brief := mapCell dumps (jGet fs "executive_brief".data) }
    | some _ => r) = r
  cases he : s.isEmpty with
  | true => simp
  | false =>
    simp only [Bool.false_eq_true, if_false]
    cases hp : parse s with
    | none => rfl
    | some v =>
      cases v with
      | obj fs => exact absurd hp (h fs)
      | null => rfl
      | bool b => rfl
      | num m => rfl
      | str s2 => rfl
      | arr xs => rfl

/-- A well-formed object response rewrites exactly the nine enrichment
fields through mapCell. -/
theorem applyEnrichment_obj (parse : Str → Option JValue) (dumps : JValue → Str)
    (s : Str) (fs : List (Str × JValue)) (r : CompanyResult)
    (he : s.isEmpty = false) (hp : parse s = some (JValue.obj fs)) :
    applyEnrichment parse dumps (some s) r =
    { r with
      company_overview := mapCell dumps (jGet fs "company_overview".data),
      business_model := mapCell dumps (jGet fs "business_model".data),
      products_services := mapCell dumps (jGet fs "products_services".data),
      operational_footprint := mapCell dumps (jGet fs "operational_footprint".data),
      ai_ml_opportunity_map := mapCell dumps (jGet fs "ai_ml_opportunity_map".data),
      leadership := mapCell dumps (jGet fs "leadership".data),
      strategic_developments := mapCell dumps (jGet fs "strategic_developments".data),
      strategic_outlook := mapCell dumps (jGet fs "strategic_outlook".data),
      executive_brief := mapCell dumps (jGet fs "executive_brief".data) } := by
  show (if s.isEmpty = true then r else
    match parse s with
    | none => r
    | some (JValue.obj fs) =>
      { r with
        company_overview := mapCell dumps (jGet fs "company_overview".data),
        business_model := mapCell dumps (jGet fs "business_model".data),
        products_services := mapCell dumps (jGet fs "products_services".data),
        operational_footprint := mapCell dumps (jGet fs "operational_footprint".data),
        ai_ml_opportunity_map := mapCell dumps (jGet fs "ai_ml_opportunity_map".data),
        leadership := mapCell dumps (jGet fs "leadership".data),
        strategic_developments := mapCell dumps (jGet fs "strategic_developments".data),
        strategic_outlook := mapCell dumps (jGet fs "strategic_outlook".data),
        executive_brief := mapCell dumps (jGet fs "executive_brief".data) }
    | some _ => r) = _
  rw [he, hp]
  simp only [Bool.false_eq_true, if_false]

/-- C6: enrichment degrades to null without escaping the adapter boundary:
unconfigured credentials or model name skip the service call with no network
access and the company's nine fields stay null; a missing or malformed (or
non-object) response leaves all nine fields null; a well-formed object is
mapped key by key — an absent key or JSON null gives null, a nested
structure is stored as its compact serialization, and a scalar is stored
as-is; a network or service failure yields None from the adapter instead of
an exception, never aborting the company's crawl. -/
theorem C6_enrichment_null_degradation (key modelName : Option Str)
    (net : NetOutcome) (env : CrawlEnv) (n w raw : Str) :
    (isUnconfigured key modelName = true →
      preprocess_about_with_llm key modelName net = (none, false)) ∧
    ((preprocess_about_with_llm key modelName NetOutcome.failed).1 = none) ∧
    (env.llmRaw = none → nineNull (scrape_company env n w)) ∧
    (env.llmRaw = some raw → (∀ fs, env.parse raw ≠ some (JValue.obj fs)) →
      nineNull (scrape_company env n w)) ∧
    (∀ fs home, env.llmRaw = some raw → raw.isEmpty = false →
      env.parse raw = some (JValue.obj fs) → env.homeText = some home →
      ((scrape_company env n w).company_overview =
          mapCell env.dumps (jGet fs "company_overview".data) ∧
       (scrape_company env n w).business_model =
          mapCell env.dumps (jGet fs "business_model".data) ∧
       (scrape_company env n w).products_services =
          mapCell env.dumps (jGet fs "products_services".data) ∧
       (scrape_company env n w).operational_footprint =
          mapCell env.dumps (jGet fs "operational_footprint".data) ∧
       (scrape_company env n w).ai_ml_opportunity_map =
          mapCell env.dumps (jGet fs "ai_ml_opportunity_map".data) ∧
       (scrape_company env n w).leadership =
          mapCell env.dumps (jGet fs "leadership".data) ∧
       (scrape_company env n w).strategic_developments =
          mapCell env.dumps (jGet fs "strategic_developments".data) ∧
       (scrape_company env n w).strategic_outlook =
          mapCell env.dumps (jGet fs "strategic_outlook".data) ∧
       (scrape_company env n w).executive_brief =
          mapCell env.dumps (jGet fs "executive_brief".data))) := by
  refine ⟨?_, ?_, ?_, ?_, ?_⟩
  · intro h
    simp [preprocess_about_with_llm, h]
  · by_cases hu : isUnconfigured key modelName <;>
      simp [preprocess_about_with_llm, hu]
  · intro hl
    unfold scrape_company
    cases hh : env.homeText with
    | none => exact ⟨rfl, rfl, rfl, rfl, rfl, rfl, rfl, rfl, rfl⟩
    | some home =>
      rw [hl]
      exact ⟨rfl, rfl, rfl, rfl, rfl, rfl, rfl, rfl, rfl⟩
  · intro hl hno
    unfold scrape_company
    cases hh : env.homeText with
    | none => exact ⟨rfl, rfl, rfl, rfl, rfl, rfl, rfl, rfl, rfl⟩
    | some home =>
      rw [hl]
      simp only [fun r => applyEnrichment_not_obj env.parse env.dumps raw r hno]
      exact ⟨rfl, rfl, rfl, rfl, rfl, rfl, rfl, rfl, rfl⟩
  · intro fs home hl hraw hp hh
    unfold scrape_company
    rw [hh, hl]
    simp only [fun r => applyEnrichment_obj env.parse env.dumps raw fs r hraw hp]
    simp

/-- C6 witness: unconfigured credentials return None with no network call,
and a malformed enrichment response leaves the nine columns of a concrete
crawl null. -/
theorem C6_witness :
    preprocess_about_with_llm none none NetOutcome.failed = (none, false) ∧
    nineNull (scrape_company malformedEnv "n".data "w".data) := by
  constructor
  · exact (C6_enrichment_null_degradation none none NetOutcome.failed
      malformedEnv "n".data "w".data "x".data).1 (by decide)
  · exact (C6_enrichment_null_degradation none none NetOutcome.failed
      malformedEnv "n".data "w".data "x".data).2.2.2.1 rfl
      (fun fs h => Option.noConfusion h)

end LeadSight
